import Mathlib

/-!
Verification of the git-sync wire-protocol engine.

Byte streams are modelled as `List Nat` (each element one byte); readers
consume from the front and writers produce byte lists.  Machine-integer
subtleties (the `usize` underflow in the packet-length computation) are
modelled explicitly.
-/

/-- ASCII bytes of a string literal (all strings used here are ASCII). -/
def strBytes (s : String) : List Nat := s.toList.map (fun c => c.toNat)

example : strBytes "0003" = [48, 48, 48, 51] := by decide

/-! ## Packet framer (src/protocol.rs) -/

/-- `io::ErrorKind` values that arise in the sources. -/
inductive ErrKind where
  | other
  | brokenPipe
  | unexpectedEof
  deriving DecidableEq

/-- A model of `std::io::Error`: its kind plus the optional message attached
with `io::Error::new` (absent for `io::Error::from(kind)`). -/
structure IOError where
  kind : ErrKind
  msg : Option String
  deriving DecidableEq

/-- Result of running an operation against a front-consumed byte stream.
`ok a rest` returns the value and the unread remainder of the stream;
`err` models a returned `io::Error`; `crash` models a Rust panic (here: the
`usize` underflow of the packet-length computation, which panics in debug
builds and aborts via `Vec::with_capacity` capacity overflow in release). -/
inductive Outcome (α : Type) where
  | ok (a : α) (rest : List Nat)
  | err (e : IOError)
  | crash (msg : String)
  deriving DecidableEq

/-- `ProtocolLine` (protocol.rs:11-23). `Data` payload bytes are owned. -/
inductive ProtocolLine where
  | Flush
  | Delimiter
  | ResponseEnd
  | Data (bytes : List Nat)
  deriving DecidableEq

/-- The lenient hex lexer applied to each header byte (protocol.rs:89-95):
digits and lowercase `a`-`f` take their value, every other byte counts 0. -/
def hexVal (b : Nat) : Nat :=
  if 48 ≤ b ∧ b ≤ 57 then b - 48
  else if 97 ≤ b ∧ b ≤ 102 then b - 97 + 10
  else 0

/-- The four-nibble combination of a lexed header (protocol.rs:96-99). -/
def lexVal (a b c d : Nat) : Nat :=
  hexVal a * 4096 + hexVal b * 256 + hexVal c * 16 + hexVal d

/-- One lowercase hex digit byte: `0`-`9` then `a`-`f`. -/
def hexDigit (n : Nat) : Nat := if n < 10 then 48 + n else 87 + n

/-- Little-endian hex digits of `n`; the first argument is structural fuel
(`n` itself is always enough since the argument quarters each step). -/
def natHexRevF : Nat → Nat → List Nat
  | 0, _ => []
  | fuel + 1, n => if n = 0 then [] else hexDigit (n % 16) :: natHexRevF fuel (n / 16)

/-- Minimal lowercase hex representation of `n` (`"0"` for zero), as Rust's
`{:x}` produces. -/
def hexChars (n : Nat) : List Nat :=
  if n = 0 then [48] else (natHexRevF n n).reverse

/-- Rust's `format!("{:04x}", n)` (protocol.rs:52,66): minimal hex, zero-padded
on the left to at least four characters. -/
def pktLenHeader (n : Nat) : List Nat :=
  List.replicate (4 - (hexChars n).length) 48 ++ hexChars n

/-- `ProtocolLine::write_to` (protocol.rs:57-72). -/
def ProtocolLine.write_to : ProtocolLine → List Nat
  | .Flush => strBytes "0000"
  | .Delimiter => strBytes "0001"
  | .ResponseEnd => strBytes "0002"
  | .Data bytes => pktLenHeader (bytes.length + 4) ++ bytes

/-- `ProtocolLine::write_str` (protocol.rs:46-55): frame a textual payload. -/
def ProtocolLine.write_str (s : List Nat) : List Nat :=
  pktLenHeader (s.length + 4) ++ s

/-- The `chomp_newline` step of decoding (protocol.rs:105-107). -/
def chompData (chomp : Bool) (data : List Nat) : List Nat :=
  if chomp ∧ data ≠ [] ∧ data.getLast? = some 10 then data.dropLast else data

/-- `ProtocolLine::read_from` (protocol.rs:74-111).  Reads four header bytes
(`UnexpectedEof` if the stream is shorter, as `read_exact` reports); literal
`0000`/`0001`/`0002` are sentinels, literal `0003` is the reserved error,
any other header is lexed leniently to `L`.  The source then computes
`L - 4` in `usize`: when `L < 4` that subtraction underflows — a panic in
debug builds, and in release the wrapped value makes
`Vec::with_capacity` abort — modelled by `crash`.  Otherwise exactly
`L - 4` payload bytes are taken; `read_to_end` over `take(pktlen)` yields
`min pktlen available` bytes and a shortfall is `BrokenPipe`
(protocol.rs:102-104). -/
def ProtocolLine.read_from (chomp : Bool) (s : List Nat) : Outcome ProtocolLine :=
  match s with
  | a :: b :: c :: d :: rest =>
    if [a, b, c, d] = strBytes "0000" then .ok .Flush rest
    else if [a, b, c, d] = strBytes "0001" then .ok .Delimiter rest
    else if [a, b, c, d] = strBytes "0002" then .ok .ResponseEnd rest
    else if [a, b, c, d] = strBytes "0003" then .err ⟨.other, none⟩
    else
      let L := lexVal a b c d
      if L < 4 then .crash "attempt to subtract with overflow"
      else
        let pktlen := L - 4
        let data := rest.take pktlen
        if data.length ≠ pktlen then .err ⟨.brokenPipe, none⟩
        else .ok (.Data (chompData chomp data)) (rest.drop pktlen)
  | _ => .err ⟨.unexpectedEof, none⟩

/-! ## Capability registry (src/protocol.rs:123-219) -/

/-- `Capability` (protocol.rs:123-151). -/
inductive Capability where
  | MultiAck
  | MultiAckDetailed
  | NoDone
  | ThinPack
  | SideBand
  | SideBand64K
  | OfsDelta
  | Agent
  | ObjectFormat
  | SymRef
  | Shallow
  | DeepenSince
  | DeepenNot
  | DeepenRelative
  | NoProgress
  | IncludeTag
  | ReportStatus
  | ReportStatusV2
  | DeleteRefs
  | Quiet
  | Atomic
  | PushOptions
  | AllowTipSha1InWant
  | AllowReachableSha1InWant
  | PushCert
  | Filter
  deriving DecidableEq

/-- `Capability::as_str` (protocol.rs:153-184). -/
def Capability.as_str : Capability → String
  | .MultiAck => "multi_ack"
  | .MultiAckDetailed => "multi_ack_detailed"
  | .NoDone => "no-done"
  | .ThinPack => "thin-pack"
  | .SideBand => "side-band"
  | .SideBand64K => "side-band-64k"
  | .OfsDelta => "ofs-delta"
  | .Agent => "agent"
  | .ObjectFormat => "object-format"
  | .SymRef => "symref"
  | .Shallow => "shallow"
  | .DeepenSince => "deepen-since"
  | .DeepenNot => "deepen-not"
  | .DeepenRelative => "deepen-relative"
  | .NoProgress => "no-progress"
  | .IncludeTag => "include-tag"
  | .ReportStatus => "report-status"
  | .ReportStatusV2 => "report-status-v2"
  | .DeleteRefs => "delete-refs"
  | .Quiet => "quiet"
  | .Atomic => "atomic"
  | .PushOptions => "push-options"
  | .AllowTipSha1InWant => "allow-tip-sha1-in-want"
  | .AllowReachableSha1InWant => "allow-reachable-sha1-in-want"
  | .PushCert => "push-cert"
  | .Filter => "filter"

/-- `Capability::try_from` (protocol.rs:186-219); the unknown token is
returned in the error, as in the source. -/
def Capability.try_from (t : List Nat) : Except (List Nat) Capability :=
  if t = strBytes "multi_ack" then .ok .MultiAck
  else if t = strBytes "multi_ack_detailed" then .ok .MultiAckDetailed
  else if t = strBytes "no-done" then .ok .NoDone
  else if t = strBytes "thin-pack" then .ok .ThinPack
  else if t = strBytes "side-band" then .ok .SideBand
  else if t = strBytes "side-band-64k" then .ok .SideBand64K
  else if t = strBytes "ofs-delta" then .ok .OfsDelta
  else if t = strBytes "agent" then .ok .Agent
  else if t = strBytes "object-format" then .ok .ObjectFormat
  else if t = strBytes "symref" then .ok .SymRef
  else if t = strBytes "shallow" then .ok .Shallow
  else if t = strBytes "deepen-since" then .ok .DeepenSince
  else if t = strBytes "deepen-not" then .ok .DeepenNot
  else if t = strBytes "deepen-relative" then .ok .DeepenRelative
  else if t = strBytes "no-progress" then .ok .NoProgress
  else if t = strBytes "include-tag" then .ok .IncludeTag
  else if t = strBytes "report-status" then .ok .ReportStatus
  else if t = strBytes "report-status-v2" then .ok .ReportStatusV2
  else if t = strBytes "delete-refs" then .ok .DeleteRefs
  else if t = strBytes "quiet" then .ok .Quiet
  else if t = strBytes "atomic" then .ok .Atomic
  else if t = strBytes "push-options" then .ok .PushOptions
  else if t = strBytes "allow-tip-sha1-in-want" then .ok .AllowTipSha1InWant
  else if t = strBytes "allow-reachable-sha1-in-want" then .ok .AllowReachableSha1InWant
  else if t = strBytes "push-cert" then .ok .PushCert
  else if t = strBytes "filter" then .ok .Filter
  else .error t

/-- `NULLSHA` (protocol.rs:9). -/
def NULLSHA : List Nat := strBytes "0000000000000000000000000000000000000000"

/-! ## Advertisement reading
(`RefAdvertisement::read_from`, protocol.rs:227-282;
`GitFetch::read_advertisement`, fetch.rs:32-80;
`GitSend::read_advertisement`, send.rs:32-84) -/

/-- Rust slice `split` on a separator byte: yields `n + 1` segments for `n`
separators, one empty segment for the empty slice. -/
def splitOnByte (sep : Nat) : List Nat → List (List Nat)
  | [] => [[]]
  | b :: rest =>
    match splitOnByte sep rest with
    | s :: ss => if b = sep then [] :: s :: ss else (b :: s) :: ss
    | [] => [[b]]

/-- Split at the first occurrence of a separator byte: the part before it,
and — when the separator occurs — the whole remainder after it (this is
`str::find` followed by index slicing, and also `str::split`'s first two
items). -/
def splitFirstAt (sep : Nat) : List Nat → List Nat × Option (List Nat)
  | [] => ([], none)
  | b :: rest =>
    if b = sep then ([], some rest)
    else
      let p := splitFirstAt sep rest
      (b :: p.1, p.2)

/-- `HashMap::insert`, modelled extensionally on an association list:
the new binding wins over any previous binding of the same key. -/
def insertA {κ : Type} [DecidableEq κ] (m : List (κ × List Nat)) (k : κ)
    (v : List Nat) : List (κ × List Nat) :=
  (k, v) :: m.filter (fun p => p.1 ≠ k)

/-- `HashMap::insert` for the capability map (optional values). -/
def insertC (m : List (Capability × Option (List Nat))) (c : Capability)
    (v : Option (List Nat)) : List (Capability × Option (List Nat)) :=
  (c, v) :: m.filter (fun p => p.1 ≠ c)

/-- The capability-blob processing shared by all three advertisement readers
(protocol.rs:252-266): split on spaces, split each token at its first `=`,
insert recognized tokens, silently drop unknown ones. -/
def processCaps (acc : List (Capability × Option (List Nat)))
    (capsBytes : List Nat) : List (Capability × Option (List Nat)) :=
  (splitOnByte 32 capsBytes).foldl
    (fun acc tok =>
      let nv := splitFirstAt 61 tok
      match Capability.try_from nv.1 with
      | .ok c => insertC acc c nv.2
      | .error _ => acc)
    acc

/-- The advertisement-reading loop shared (verbatim but for one line) by
`RefAdvertisement::read_from`, `GitFetch::read_advertisement` and
`GitSend::read_advertisement`.  `sentinelFilter` is the single point where
the three differ: only send.rs:74 guards the insertion with
`refname != "capabilities^{}"`.  The first argument is structural fuel; a
successful packet read consumes at least four bytes, so fuel equal to the
stream length always suffices, and at fuel 0 under that invariant the
stream is empty and the loop's next read would report `UnexpectedEof` —
which is exactly what the fuel-0 branch returns. -/
def advertLoopF (sentinelFilter : Bool) :
    Nat → List (Capability × Option (List Nat)) → List (List Nat × List Nat) →
    List Nat →
    Outcome (List (Capability × Option (List Nat)) × List (List Nat × List Nat))
  | 0, _, _, _ => .err ⟨.unexpectedEof, none⟩
  | fuel + 1, caps, refs, s =>
    match ProtocolLine.read_from true s with
    | .ok .Flush rest => .ok (caps, refs) rest
    | .ok .Delimiter _ => .err ⟨.other, some "Unexpected protocol packet"⟩
    | .ok .ResponseEnd _ => .err ⟨.other, some "Unexpected protocol packet"⟩
    | .ok (.Data d) rest =>
      let parts := splitOnByte 0 d
      let refpart := parts.headD []
      let caps' :=
        match parts.get? 1 with
        | some capsBytes => processCaps caps capsBytes
        | none => caps
      match splitFirstAt 32 refpart with
      | (sha, some refname) =>
        let refs' :=
          if sentinelFilter ∧ refname = strBytes "capabilities^\x7b\x7d" then refs
          else insertA refs refname sha
        advertLoopF sentinelFilter fuel caps' refs' rest
      | (_, none) => .err ⟨.other, some "Malformed ref line"⟩
    | .err e => .err e
    | .crash m => .crash m

/-- `RefAdvertisement::read_from` (protocol.rs:227-282): no sentinel filter
on the ref insertion (protocol.rs:274). -/
def RefAdvertisement.read_from (s : List Nat) :
    Outcome (List (Capability × Option (List Nat)) × List (List Nat × List Nat)) :=
  advertLoopF false s.length [] [] s

/-- `GitFetch::read_advertisement` (fetch.rs:32-80): no sentinel filter on
the ref insertion (fetch.rs:72). -/
def GitFetch.read_advertisement (s : List Nat) :
    Outcome (List (Capability × Option (List Nat)) × List (List Nat × List Nat)) :=
  advertLoopF false s.length [] [] s

/-- `GitSend::read_advertisement` (send.rs:32-84): the ref insertion is
guarded by `refname != "capabilities^{}"` (send.rs:72-76). -/
def GitSend.read_advertisement (s : List Nat) :
    Outcome (List (Capability × Option (List Nat)) × List (List Nat × List Nat)) :=
  advertLoopF true s.length [] [] s

/-- The synthetic advertisement of an empty repository (spec §8 scenario 2):
one data line carrying only the capability blob, then a flush. -/
def emptyRepoAdvert : List Nat :=
  ProtocolLine.write_to (.Data
    (strBytes "0000000000000000000000000000000000000000 capabilities^\x7b\x7d"
      ++ [0] ++ strBytes "report-status agent=x/1"))
  ++ strBytes "0000"

/-! ## Fetch negotiator (`GitFetch::request_pack`, fetch.rs:82-125) -/

/-- The capability list appended to the first `want` line
(fetch.rs:95-103): for each capability a space, its token, and `=value`
when a value is present.  A left fold, as the source's `for` loop. -/
def capsSuffix (caps : List (Capability × Option (List Nat))) : List Nat :=
  caps.foldl
    (fun cmd cap =>
      cmd ++ [32] ++ strBytes cap.1.as_str ++
        (match cap.2 with
        | some v => [61] ++ v
        | none => []))
    []

/-- The `want` command lines (fetch.rs:93-106): the capabilities iterator is
fused and fully drained inside the first iteration, so only the first line
carries the capability list. -/
def wantLines : List (List Nat) → List (Capability × Option (List Nat)) →
    List (List Nat)
  | [], _ => []
  | w :: ws, caps => (strBytes "want " ++ w ++ capsSuffix caps) :: wantLines ws []

/-- `GitFetch::request_pack` (fetch.rs:82-125).  Returns the bytes written to
the source peer together with the outcome (`ok` carries the unread
remainder of the peer's reply stream). -/
def GitFetch.request_pack (want haves : List (List Nat))
    (caps : List (Capability × Option (List Nat))) (reader : List Nat) :
    List Nat × Outcome Bool :=
  let written := ((wantLines want caps).map ProtocolLine.write_str).flatten
    ++ strBytes "0000"
  if want.isEmpty then (written, .ok false reader)
  else
    let written := written
      ++ (haves.map (fun sha => ProtocolLine.write_str (strBytes "have " ++ sha))).flatten
      ++ ProtocolLine.write_str (strBytes "done")
    match ProtocolLine.read_from true reader with
    | .ok (.Data d) rest =>
      if d = strBytes "NAK" then (written, .ok true rest)
      else (written, .err ⟨.other, some "NAK packet not found"⟩)
    | .ok .Flush _ => (written, .err ⟨.other, some "NAK packet not found"⟩)
    | .ok .Delimiter _ => (written, .err ⟨.other, some "NAK packet not found"⟩)
    | .ok .ResponseEnd _ => (written, .err ⟨.other, some "NAK packet not found"⟩)
    | .err e => (written, .err e)
    | .crash m => (written, .crash m)

/-! ## The orchestrator's wants computation (src/main.rs:140-148) -/

/-- `str::ends_with` for byte strings. -/
def endsWithB (l suf : List Nat) : Bool :=
  decide (suf.length ≤ l.length) && decide (l.drop (l.length - suf.length) = suf)

/-- The wanted-identifier computation of `main` (main.rs:140-148): source
ref-map entries with peeled keys (ending `^{}`) filtered out, entries whose
identifier the target already has filtered out, then the identifiers.
(The source collects into a `HashSet`; membership is what matters here.) -/
def wantsOf (sourceRefs targetRefs : List (List Nat × List Nat)) : List (List Nat) :=
  ((sourceRefs.filter (fun p => !endsWithB p.1 (strBytes "^\x7b\x7d"))).filter
    (fun p => !targetRefs.any (fun q => decide (q.2 = p.2)))).map (fun p => p.2)

/-! ## Push command emitter (`send_refchange` / `SendActivity`)

`main.rs` calls `send_refchange` and matches on `SendActivity`
(main.rs:182-204), but their definitions are not among the source files
under src/ (lib.rs re-exports only the protocol module, `GitFetch` and
`GitSend`).  They are therefore modelled from the spec (§4.5). -/

/-- Modelled from the spec: the tri-state return of the push command emitter
(`SendActivity`), whose definition is not under src/. -/
inductive SendActivity where
  | Nothing
  | Deleting
  | Sending
  deriving DecidableEq

/-- Association-list lookup (`HashMap::get`). -/
def lookupA (m : List (List Nat × List Nat)) (k : List Nat) : Option (List Nat) :=
  match m with
  | [] => none
  | p :: rest => if p.1 = k then some p.2 else lookupA rest k

/-- Modelled from the spec (§4.5 steps 1-2): the update commands of the push
emitter, as `(old, new, refname)` triples.  Candidates are the keys of
either map that start `refs/` and do not end `^{}`; `old`/`new` default to
the null identifier; unchanged refs are skipped. -/
def sendCommands (existing target : List (List Nat × List Nat)) :
    List (List Nat × List Nat × List Nat) :=
  (((existing.map (fun p => p.1)) ++ (target.map (fun p => p.1))).dedup.filter
      (fun r => (decide (r.take 5 = strBytes "refs/")) &&
        !endsWithB r (strBytes "^\x7b\x7d"))).filterMap
    (fun r =>
      let old := (lookupA existing r).getD NULLSHA
      let nw := (lookupA target r).getD NULLSHA
      if old = nw then none else some (old, nw, r))

/-- Modelled from the spec (§4.5 return value): the running tri-state, updated
once per emitted command as an implementation of the emitter would — a
command with a non-null new identifier forces `Sending`, any command moves
`Nothing` to `Deleting`, and `Sending` is never downgraded. -/
def updateActivity (act : SendActivity) (cmd : List Nat × List Nat × List Nat) :
    SendActivity :=
  if cmd.2.1 ≠ NULLSHA then .Sending
  else
    match act with
    | .Nothing => .Deleting
    | a => a

/-- Modelled from the spec (§4.5 steps 3-5): serialize the commands —
`<old> SP <new> SP <refname>`, the first followed by NUL and the
space-joined capability list, each with a trailing newline — then `Flush`. -/
def serializeCommands (cmds : List (List Nat × List Nat × List Nat))
    (caps : List (Capability × Option (List Nat))) : List Nat :=
  (match cmds with
  | [] => []
  | c :: rest =>
    ProtocolLine.write_str
      (c.1 ++ [32] ++ c.2.1 ++ [32] ++ c.2.2 ++ [0] ++ (capsSuffix caps).drop 1 ++ [10])
    ++ (rest.map (fun c =>
          ProtocolLine.write_str (c.1 ++ [32] ++ c.2.1 ++ [32] ++ c.2.2 ++ [10]))).flatten)
  ++ strBytes "0000"

/-- Modelled from the spec: `send_refchange`, whose definition is not under
src/ (main.rs:182-188 is its only appearance).  Returns the bytes written
to the destination peer and the `SendActivity` classification. -/
def send_refchange (existing target : List (List Nat × List Nat))
    (caps : List (Capability × Option (List Nat))) : List Nat × SendActivity :=
  let cmds := sendCommands existing target
  (serializeCommands cmds caps, cmds.foldl updateActivity .Nothing)

/-- An advertisement carrying a peeled ref name (`refs/tags/v1^{}`). -/
def peeledAdvert : List Nat :=
  ProtocolLine.write_to (.Data (strBytes "A refs/tags/v1^\x7b\x7d")) ++ strBytes "0000"

/-! ## Sanity checks -/

example : ProtocolLine.read_from false (strBytes "0005a") = .ok (.Data [97]) [] := by decide
example : ProtocolLine.read_from false (strBytes "0003") = .err ⟨.other, none⟩ := by decide
example : ProtocolLine.read_from false [48, 48, 48, 32] =
    .crash "attempt to subtract with overflow" := by decide
example : ProtocolLine.write_to (.Data [97]) = strBytes "0005a" := by decide

example : RefAdvertisement.read_from emptyRepoAdvert =
    .ok ([(Capability.Agent, some (strBytes "x/1")), (Capability.ReportStatus, none)],
      [(strBytes "capabilities^\x7b\x7d", NULLSHA)]) [] := by decide

example : GitSend.read_advertisement emptyRepoAdvert =
    .ok ([(Capability.Agent, some (strBytes "x/1")), (Capability.ReportStatus, none)],
      []) [] := by decide

example : GitFetch.request_pack [] [strBytes "B"] [(Capability.ThinPack, none)]
    (strBytes "anything") = (strBytes "0000", .ok false (strBytes "anything")) := by
  decide

example : GitFetch.request_pack [strBytes "A"] [strBytes "B"]
    [(Capability.ThinPack, none), (Capability.Agent, some (strBytes "x/1"))]
    (ProtocolLine.write_str (strBytes "NAK")) =
    (ProtocolLine.write_str (strBytes "want A thin-pack agent=x/1")
      ++ strBytes "0000"
      ++ ProtocolLine.write_str (strBytes "have B")
      ++ ProtocolLine.write_str (strBytes "done"),
      .ok true []) := by decide

example : send_refchange [(strBytes "refs/heads/main", strBytes "A")] [] [] =
    (ProtocolLine.write_str (strBytes "A" ++ [32] ++ NULLSHA ++ [32]
        ++ strBytes "refs/heads/main" ++ [0] ++ [10]) ++ strBytes "0000",
      .Deleting) := by decide

/-! ### Header arithmetic lemmas -/

lemma natHexRevF_zero (fuel : Nat) : natHexRevF fuel 0 = [] := by
  cases fuel <;> simp [natHexRevF]

lemma natHexRevF_step (fuel n : Nat) (hn : 0 < n) (hf : n ≤ fuel) :
    natHexRevF fuel n = hexDigit (n % 16) :: natHexRevF (fuel - 1) (n / 16) := by
  cases fuel with
  | zero => omega
  | succ f => simp [natHexRevF, show n ≠ 0 by omega]

lemma natHexRevF_congr (fuel fuel' n : Nat) (h : n ≤ fuel) (h' : n ≤ fuel') :
    natHexRevF fuel n = natHexRevF fuel' n := by
  induction fuel using Nat.strong_induction_on generalizing fuel' n with
  | _ fuel ih =>
    rcases Nat.eq_zero_or_pos n with hz | hp
    · subst hz; rw [natHexRevF_zero, natHexRevF_zero]
    · rw [natHexRevF_step fuel n hp h, natHexRevF_step fuel' n hp h']
      rcases Nat.eq_zero_or_pos (n / 16) with hq | hq
      · rw [hq, natHexRevF_zero, natHexRevF_zero]
      · have hlt : n / 16 < n := Nat.div_lt_self hp (by norm_num)
        have hfuel : fuel - 1 < fuel := by omega
        rw [ih (fuel - 1) hfuel (fuel' - 1) (n / 16) (by omega) (by omega)]

/-- Structure of the four-hex header for `n < 65536`. -/
lemma pktLenHeader_lt (n : Nat) (h : n < 65536) :
    pktLenHeader n =
      [hexDigit (n / 4096), hexDigit (n / 256 % 16), hexDigit (n / 16 % 16),
        hexDigit (n % 16)] := by
  rcases Nat.eq_zero_or_pos n with hz | h1
  · subst hz; decide
  rcases Nat.lt_or_ge n 16 with h16 | h16
  · have e1 : natHexRevF n n = [hexDigit (n % 16)] := by
      rw [natHexRevF_step n n h1 (le_refl n)]
      have : n / 16 = 0 := by omega
      rw [this, natHexRevF_zero]
    have hne : n ≠ 0 := by omega
    simp only [pktLenHeader, hexChars, hne, if_false, e1, List.reverse_singleton]
    have d0 : n / 4096 = 0 := by omega
    have d1 : n / 256 % 16 = 0 := by omega
    have d2 : n / 16 % 16 = 0 := by omega
    rw [d0, d1, d2]
    simp [hexDigit]
  rcases Nat.lt_or_ge n 256 with h256 | h256
  · have e1 : natHexRevF n n = [hexDigit (n % 16), hexDigit (n / 16 % 16)] := by
      rw [natHexRevF_step n n h1 (le_refl n)]
      rw [natHexRevF_step (n - 1) (n / 16) (by omega) (by omega)]
      have hq : n / 16 / 16 = 0 := by omega
      rw [hq, natHexRevF_zero]
    have hne : n ≠ 0 := by omega
    simp only [pktLenHeader, hexChars, hne, if_false, e1]
    have d0 : n / 4096 = 0 := by omega
    have d1 : n / 256 % 16 = 0 := by omega
    rw [d0, d1]
    simp [hexDigit]
  rcases Nat.lt_or_ge n 4096 with h4096 | h4096
  · have e1 : natHexRevF n n =
        [hexDigit (n % 16), hexDigit (n / 16 % 16), hexDigit (n / 256 % 16)] := by
      rw [natHexRevF_step n n h1 (le_refl n)]
      rw [natHexRevF_step (n - 1) (n / 16) (by omega) (by omega)]
      have hq : n / 16 / 16 = n / 256 := by omega
      rw [hq]
      rw [natHexRevF_step (n - 1 - 1) (n / 256) (by omega) (by omega)]
      have hq2 : n / 256 / 16 = 0 := by omega
      have hm : n / 256 % 16 = n / 256 := by omega
      rw [hq2, natHexRevF_zero, hm]
    have hne : n ≠ 0 := by omega
    simp only [pktLenHeader, hexChars, hne, if_false, e1]
    have d0 : n / 4096 = 0 := by omega
    have hm : n / 256 % 16 = n / 256 := by omega
    rw [d0, hm]
    simp [hexDigit]
  · have e1 : natHexRevF n n =
        [hexDigit (n % 16), hexDigit (n / 16 % 16), hexDigit (n / 256 % 16),
          hexDigit (n / 4096)] := by
      rw [natHexRevF_step n n h1 (le_refl n)]
      rw [natHexRevF_step (n - 1) (n / 16) (by omega) (by omega)]
      have hq : n / 16 / 16 = n / 256 := by omega
      rw [hq]
      rw [natHexRevF_step (n - 1 - 1) (n / 256) (by omega) (by omega)]
      have hq2 : n / 256 / 16 = n / 4096 := by omega
      rw [hq2]
      rw [natHexRevF_step (n - 1 - 1 - 1) (n / 4096) (by omega) (by omega)]
      have hq3 : n / 4096 / 16 = 0 := by omega
      have hm : n / 4096 % 16 = n / 4096 := by omega
      rw [hq3, natHexRevF_zero, hm]
    have hne : n ≠ 0 := by omega
    simp only [pktLenHeader, hexChars, hne, if_false, e1]
    simp

lemma hexVal_hexDigit (d : Nat) (h : d < 16) : hexVal (hexDigit d) = d := by
  simp only [hexVal, hexDigit]
  split_ifs <;> omega

/-- Lexing the emitted header recovers the value. -/
lemma lexVal_header (n : Nat) (h : n < 65536) :
    lexVal (hexDigit (n / 4096)) (hexDigit (n / 256 % 16)) (hexDigit (n / 16 % 16))
      (hexDigit (n % 16)) = n := by
  simp only [lexVal]
  rw [hexVal_hexDigit _ (by omega), hexVal_hexDigit _ (by omega),
    hexVal_hexDigit _ (by omega), hexVal_hexDigit _ (by omega)]
  omega

/-- Decoding a non-sentinel header of lenient value at least 4: exactly
`L - 4` payload bytes are consumed, a shortfall is `BrokenPipe`. -/
lemma read_from_data_eq (chomp : Bool) (a₁ a₂ a₃ a₄ : Nat) (tail : List Nat)
    (h4 : 4 ≤ lexVal a₁ a₂ a₃ a₄) :
    ProtocolLine.read_from chomp (a₁ :: a₂ :: a₃ :: a₄ :: tail) =
      if lexVal a₁ a₂ a₃ a₄ - 4 ≤ tail.length then
        .ok (.Data (chompData chomp (tail.take (lexVal a₁ a₂ a₃ a₄ - 4))))
          (tail.drop (lexVal a₁ a₂ a₃ a₄ - 4))
      else .err ⟨.brokenPipe, none⟩ := by
  have e0 : ¬([a₁, a₂, a₃, a₄] = strBytes "0000") := by
    intro he
    have : strBytes "0000" = [48, 48, 48, 48] := by decide
    rw [this] at he
    simp only [List.cons.injEq, and_true] at he
    obtain ⟨e1, e2, e3, e4⟩ := he
    subst e1; subst e2; subst e3; subst e4
    exact absurd h4 (by decide)
  have e1 : ¬([a₁, a₂, a₃, a₄] = strBytes "0001") := by
    intro he
    have : strBytes "0001" = [48, 48, 48, 49] := by decide
    rw [this] at he
    simp only [List.cons.injEq, and_true] at he
    obtain ⟨e1, e2, e3, e4⟩ := he
    subst e1; subst e2; subst e3; subst e4
    exact absurd h4 (by decide)
  have e2 : ¬([a₁, a₂, a₃, a₄] = strBytes "0002") := by
    intro he
    have : strBytes "0002" = [48, 48, 48, 50] := by decide
    rw [this] at he
    simp only [List.cons.injEq, and_true] at he
    obtain ⟨e1, e2, e3, e4⟩ := he
    subst e1; subst e2; subst e3; subst e4
    exact absurd h4 (by decide)
  have e3 : ¬([a₁, a₂, a₃, a₄] = strBytes "0003") := by
    intro he
    have : strBytes "0003" = [48, 48, 48, 51] := by decide
    rw [this] at he
    simp only [List.cons.injEq, and_true] at he
    obtain ⟨f1, f2, f3, f4⟩ := he
    subst f1; subst f2; subst f3; subst f4
    exact absurd h4 (by decide)
  simp only [ProtocolLine.read_from, e0, e1, e2, e3, if_false,
    if_neg (Nat.not_lt.mpr h4)]
  by_cases hle : lexVal a₁ a₂ a₃ a₄ - 4 ≤ tail.length
  · have hmin : (tail.take (lexVal a₁ a₂ a₃ a₄ - 4)).length
        = lexVal a₁ a₂ a₃ a₄ - 4 := by
      simp [List.length_take]; omega
    simp [hmin, hle]
  · have hmin : (tail.take (lexVal a₁ a₂ a₃ a₄ - 4)).length
        ≠ lexVal a₁ a₂ a₃ a₄ - 4 := by
      simp [List.length_take]; omega
    simp [hmin, hle]

/-- Decoding a non-sentinel header of lenient value below 4: the `usize`
length subtraction underflows (a panic). -/
lemma read_from_underflow (chomp : Bool) (a₁ a₂ a₃ a₄ : Nat) (tail : List Nat)
    (hs0 : [a₁, a₂, a₃, a₄] ≠ strBytes "0000")
    (hs1 : [a₁, a₂, a₃, a₄] ≠ strBytes "0001")
    (hs2 : [a₁, a₂, a₃, a₄] ≠ strBytes "0002")
    (hs3 : [a₁, a₂, a₃, a₄] ≠ strBytes "0003")
    (h4 : lexVal a₁ a₂ a₃ a₄ < 4) :
    ProtocolLine.read_from chomp (a₁ :: a₂ :: a₃ :: a₄ :: tail) =
      .crash "attempt to subtract with overflow" := by
  simp only [ProtocolLine.read_from, hs0, hs1, hs2, hs3, if_false, if_pos h4]

/-- Decoding what `write_to` produced for a `Data` payload of admissible
length consumes exactly the frame and returns the (possibly chomped)
payload. -/
lemma read_write_data (chomp : Bool) (b rest : List Nat) (h : b.length ≤ 65515) :
    ProtocolLine.read_from chomp (ProtocolLine.write_to (.Data b) ++ rest) =
      .ok (.Data (chompData chomp b)) rest := by
  have hn : b.length + 4 < 65536 := by omega
  rw [ProtocolLine.write_to, pktLenHeader_lt (b.length + 4) hn]
  have hlex := lexVal_header (b.length + 4) hn
  simp only [List.cons_append, List.nil_append]
  have h4' : 4 ≤ lexVal (hexDigit ((b.length + 4) / 4096))
      (hexDigit ((b.length + 4) / 256 % 16)) (hexDigit ((b.length + 4) / 16 % 16))
      (hexDigit ((b.length + 4) % 16)) := by
    rw [hlex]; omega
  rw [read_from_data_eq chomp _ _ _ _ (b ++ rest) h4']
  rw [hlex]
  have htake : (b ++ rest).take (b.length + 4 - 4) = b := by
    have : b.length + 4 - 4 = b.length := by omega
    rw [this, List.take_left]
  have hdrop : (b ++ rest).drop (b.length + 4 - 4) = rest := by
    have : b.length + 4 - 4 = b.length := by omega
    rw [this, List.drop_left]
  rw [if_pos (by simp [List.length_append])]
  rw [htake, hdrop]

/-! ## Helper lemmas -/

lemma foldl_append_flatten {α : Type} (g : α → List Nat) (l : List α) :
    ∀ acc : List Nat,
      l.foldl (fun cmd c => cmd ++ g c) acc = acc ++ (l.map g).flatten := by
  induction l with
  | nil => intro acc; simp
  | cons c t ih =>
    intro acc
    simp only [List.foldl_cons, List.map_cons, List.flatten_cons]
    rw [ih (acc ++ g c)]
    simp [List.append_assoc]

/-- `capsSuffix` in closed form. -/
lemma capsSuffix_eq (caps : List (Capability × Option (List Nat))) :
    capsSuffix caps =
      (caps.map (fun cap => [32] ++ strBytes cap.1.as_str ++
        (match cap.2 with
        | some v => [61] ++ v
        | none => []))).flatten := by
  have h := foldl_append_flatten
    (fun cap : Capability × Option (List Nat) => [32] ++ strBytes cap.1.as_str ++
      (match cap.2 with
      | some v => [61] ++ v
      | none => [])) caps []
  simpa [capsSuffix, List.append_assoc] using h

lemma wantLines_nil_caps (ws : List (List Nat)) :
    wantLines ws [] = ws.map (fun sha => strBytes "want " ++ sha) := by
  induction ws with
  | nil => rfl
  | cons w t ih => simp [wantLines, capsSuffix, ih]

lemma wantLines_cons (w : List Nat) (ws : List (List Nat))
    (caps : List (Capability × Option (List Nat))) :
    wantLines (w :: ws) caps =
      (strBytes "want " ++ w ++ capsSuffix caps)
        :: ws.map (fun sha => strBytes "want " ++ sha) := by
  simp [wantLines, wantLines_nil_caps]

/-- The byte stream `request_pack` writes, in closed form (non-empty wants). -/
lemma request_pack_written (w : List Nat) (ws haves : List (List Nat))
    (caps : List (Capability × Option (List Nat))) (reader : List Nat) :
    (GitFetch.request_pack (w :: ws) haves caps reader).1 =
      ProtocolLine.write_str (strBytes "want " ++ w ++ capsSuffix caps)
      ++ ((ws.map (fun sha => strBytes "want " ++ sha)).map ProtocolLine.write_str).flatten
      ++ strBytes "0000"
      ++ (haves.map (fun sha => ProtocolLine.write_str (strBytes "have " ++ sha))).flatten
      ++ ProtocolLine.write_str (strBytes "done") := by
  simp only [GitFetch.request_pack, wantLines_cons, List.isEmpty_cons, List.map_cons,
    List.flatten_cons, Bool.false_eq_true, if_false]
  rcases hr : ProtocolLine.read_from true reader with _ | _ | _
  · rename_i p rest
    cases p <;> simp [hr, List.append_assoc]
    rename_i d
    by_cases hd : d = strBytes "NAK" <;> simp [hd, List.append_assoc]
  · simp [hr, List.append_assoc]
  · simp [hr, List.append_assoc]

/-- The outcome of `request_pack` for non-empty wants is decided solely by
the single reply packet: `ok true` exactly on a `NAK` data packet. -/
lemma request_pack_result (w : List Nat) (ws haves : List (List Nat))
    (caps : List (Capability × Option (List Nat))) (reader : List Nat) :
    (GitFetch.request_pack (w :: ws) haves caps reader).2 =
      (match ProtocolLine.read_from true reader with
      | .ok (.Data d) rest =>
        if d = strBytes "NAK" then .ok true rest
        else .err ⟨.other, some "NAK packet not found"⟩
      | .ok .Flush _ => .err ⟨.other, some "NAK packet not found"⟩
      | .ok .Delimiter _ => .err ⟨.other, some "NAK packet not found"⟩
      | .ok .ResponseEnd _ => .err ⟨.other, some "NAK packet not found"⟩
      | .err e => .err e
      | .crash m => .crash m) := by
  simp only [GitFetch.request_pack, List.isEmpty_cons, Bool.false_eq_true, if_false]
  rcases hr : ProtocolLine.read_from true reader with _ | _ | _
  · rename_i p rest
    cases p <;> simp [hr]
    rename_i d
    by_cases hd : d = strBytes "NAK" <;> simp [hd]
  · simp [hr]
  · simp [hr]

lemma mem_keys_insertA (m : List (List Nat × List Nat)) (k v a : List Nat) :
    a ∈ (insertA m k v).map (fun p => p.1) → a = k ∨ a ∈ m.map (fun p => p.1) := by
  intro h
  simp only [insertA, List.map_cons, List.mem_cons, List.mem_map] at h
  rcases h with h | ⟨p, hp, hpa⟩
  · exact Or.inl h
  · right
    rw [List.mem_filter] at hp
    exact List.mem_map.mpr ⟨p, hp.1, hpa⟩

/-- The filtered advertisement loop (the send.rs variant) never adds the
`capabilities^{}` sentinel to the ref map. -/
lemma advertLoopF_sentinel (fuel : Nat) :
    ∀ (caps : List (Capability × Option (List Nat)))
      (refs : List (List Nat × List Nat)) (s : List Nat) out rest,
      advertLoopF true fuel caps refs s = .ok out rest →
      strBytes "capabilities^\x7b\x7d" ∉ refs.map (fun p => p.1) →
      strBytes "capabilities^\x7b\x7d" ∉ out.2.map (fun p => p.1) := by
  induction fuel with
  | zero => intro caps refs s out rest h; simp [advertLoopF] at h
  | succ fuel ih =>
    intro caps refs s out rest h hrefs
    rw [advertLoopF] at h
    rcases hr : ProtocolLine.read_from true s with _ | _ | _ <;> rw [hr] at h
    case err => exact absurd h (by simp)
    case crash => exact absurd h (by simp)
    rename_i p rest'
    cases p with
    | Flush =>
      simp only [Outcome.ok.injEq] at h
      rw [← h.1]
      exact hrefs
    | Delimiter => exact absurd h (by simp)
    | ResponseEnd => exact absurd h (by simp)
    | Data d =>
      simp only at h
      rcases hsp : splitFirstAt 32 ((splitOnByte 0 d).headD []) with ⟨sha, refnameOpt⟩
      rw [hsp] at h
      cases refnameOpt with
      | none => exact absurd h (by simp)
      | some refname =>
        simp only at h
        by_cases hname : refname = strBytes "capabilities^\x7b\x7d"
        · rw [if_pos (by simp [hname])] at h
          exact ih _ _ _ _ _ h hrefs
        · rw [if_neg (by simp [hname])] at h
          refine ih _ _ _ _ _ h ?_
          intro hmem
          rcases mem_keys_insertA _ _ _ _ hmem with heq | hmem'
          · exact hname heq.symm
          · exact hrefs hmem'

lemma foldl_updateActivity_sending (cmds : List (List Nat × List Nat × List Nat)) :
    cmds.foldl updateActivity .Sending = .Sending := by
  induction cmds with
  | nil => rfl
  | cons c t ih =>
    simp only [List.foldl_cons]
    have : updateActivity .Sending c = .Sending := by
      simp only [updateActivity]
      split_ifs <;> rfl
    rw [this, ih]

lemma foldl_updateActivity_deleting (cmds : List (List Nat × List Nat × List Nat)) :
    cmds.foldl updateActivity .Deleting =
      if cmds.any (fun c => c.2.1 ≠ NULLSHA) then .Sending else .Deleting := by
  induction cmds with
  | nil => rfl
  | cons c t ih =>
    simp only [List.foldl_cons, List.any_cons]
    by_cases hc : c.2.1 = NULLSHA
    · have : updateActivity .Deleting c = .Deleting := by
        simp [updateActivity, hc]
      rw [this, ih]
      have hd : (decide ¬c.2.1 = NULLSHA) = false := by simp [hc]
      simp only [ne_eq, hd, Bool.false_or]
    · have : updateActivity .Deleting c = .Sending := by
        simp [updateActivity, hc]
      rw [this, foldl_updateActivity_sending]
      simp [hc]

lemma foldl_updateActivity_nothing (cmds : List (List Nat × List Nat × List Nat)) :
    cmds.foldl updateActivity .Nothing =
      if cmds.any (fun c => c.2.1 ≠ NULLSHA) then .Sending
      else if cmds.isEmpty then .Nothing else .Deleting := by
  cases cmds with
  | nil => rfl
  | cons c t =>
    simp only [List.foldl_cons, List.any_cons, List.isEmpty_cons]
    by_cases hc : c.2.1 = NULLSHA
    · have : updateActivity .Nothing c = .Deleting := by
        simp [updateActivity, hc]
      rw [this, foldl_updateActivity_deleting]
      have hd : (decide ¬c.2.1 = NULLSHA) = false := by simp [hc]
      simp only [ne_eq, hd, Bool.false_or, Bool.false_eq_true, if_false]
    · have : updateActivity .Nothing c = .Sending := by
        simp [updateActivity, hc]
      rw [this, foldl_updateActivity_sending]
      simp [hc]

/-- The success condition of the NAK confirmation, shared by the negotiator
theorems. -/
lemma request_pack_ok_iff (w : List Nat) (ws haves : List (List Nat))
    (caps : List (Capability × Option (List Nat))) (reader rest : List Nat) :
    (GitFetch.request_pack (w :: ws) haves caps reader).2 = .ok true rest ↔
      ProtocolLine.read_from true reader = .ok (.Data (strBytes "NAK")) rest := by
  rw [request_pack_result]
  cases hr : ProtocolLine.read_from true reader with
  | ok p r =>
    cases p with
    | Flush => simp
    | Delimiter => simp
    | ResponseEnd => simp
    | Data d =>
      by_cases hd : d = strBytes "NAK"
      · subst hd; simp
      · simp [hd]
  | err e => simp
  | crash m => simp

lemma capsSuffix_cons (c : Capability × Option (List Nat))
    (t : List (Capability × Option (List Nat))) :
    capsSuffix (c :: t) =
      ([32] ++ strBytes c.1.as_str ++
        (match c.2 with
        | some v => [61] ++ v
        | none => [])) ++ capsSuffix t := by
  rw [capsSuffix_eq, capsSuffix_eq]
  simp

/-- A capability present in the list occurs (as its token) inside the
capability suffix. -/
lemma capsSuffix_contains (caps : List (Capability × Option (List Nat)))
    (c : Capability) (v : Option (List Nat)) (h : (c, v) ∈ caps) :
    ∃ pre post, capsSuffix caps = pre ++ strBytes c.as_str ++ post := by
  induction caps with
  | nil => cases h
  | cons hd t ih =>
    rw [capsSuffix_cons]
    rcases List.mem_cons.mp h with heq | hmem
    · refine ⟨[32], (match hd.2 with
        | some v => [61] ++ v
        | none => []) ++ capsSuffix t, ?_⟩
      rw [← heq]
      simp [List.append_assoc]
    · obtain ⟨pre, post, hps⟩ := ih hmem
      refine ⟨([32] ++ strBytes hd.1.as_str ++
        (match hd.2 with
        | some v => [61] ++ v
        | none => [])) ++ pre, post, ?_⟩
      rw [hps]
      simp [List.append_assoc]

/-- Declarative classification of the running tri-state fold. -/
lemma activity_classification (cmds : List (List Nat × List Nat × List Nat)) :
    (cmds.foldl updateActivity .Nothing = .Nothing ↔ cmds = [])
    ∧ (cmds.foldl updateActivity .Nothing = .Sending ↔
        ∃ c ∈ cmds, c.2.1 ≠ NULLSHA)
    ∧ (cmds.foldl updateActivity .Nothing = .Deleting ↔
        cmds ≠ [] ∧ ∀ c ∈ cmds, c.2.1 = NULLSHA) := by
  rw [foldl_updateActivity_nothing]
  by_cases hany : cmds.any (fun c => c.2.1 ≠ NULLSHA) = true
  · rw [if_pos hany]
    have hex : ∃ c ∈ cmds, c.2.1 ≠ NULLSHA := by
      simpa using List.any_eq_true.mp hany
    obtain ⟨c0, hc0, hne0⟩ := hex
    exact ⟨⟨fun h => absurd h (by simp), fun h => absurd (h ▸ hc0) (by simp)⟩,
      ⟨fun _ => ⟨c0, hc0, hne0⟩, fun _ => rfl⟩,
      ⟨fun h => absurd h (by simp), fun h => absurd (h.2 c0 hc0) hne0⟩⟩
  · rw [if_neg hany]
    have hall : ∀ c ∈ cmds, c.2.1 = NULLSHA := by
      intro c hcm
      by_contra hne
      exact hany (List.any_eq_true.mpr ⟨c, hcm, by simpa using hne⟩)
    cases cmds with
    | nil => simp
    | cons c0 t =>
      simp only [List.isEmpty_cons, Bool.false_eq_true, if_false]
      refine ⟨⟨fun h => absurd h (by simp), fun h => absurd h (by simp)⟩,
        ⟨fun h => absurd h (by simp), fun h => ?_⟩,
        ⟨fun _ => ⟨by simp, hall⟩, fun _ => trivial⟩⟩
      obtain ⟨c1, hc1, hne1⟩ := h
      exact absurd (hall c1 hc1) hne1

/-! ## Claims -/

/-- C1, counterexample: parsing the synthetic empty-repository line with
`RefAdvertisement::read_from` does NOT omit the sentinel — the resulting ref
map binds `capabilities^{}` to the null identifier (the claim requires an
empty ref map for every advertisement-reading operation). -/
theorem c1_sentinel_counterexample :
    RefAdvertisement.read_from emptyRepoAdvert =
      .ok ([(Capability.Agent, some (strBytes "x/1")), (Capability.ReportStatus, none)],
        [(strBytes "capabilities^\x7b\x7d", NULLSHA)]) []
    ∧ strBytes "capabilities^\x7b\x7d" ∈
        [(strBytes "capabilities^\x7b\x7d", NULLSHA)].map
          (fun p : List Nat × List Nat => p.1) :=
  ⟨by decide, by decide⟩

/-- C1, amended: only `GitSend::read_advertisement` omits the
`capabilities^{}` sentinel from the ref map (while still accumulating the
line's capabilities); `RefAdvertisement::read_from` and
`GitFetch::read_advertisement` insert it like any other ref. -/
theorem c1_sentinel_amended :
    (∀ s out rest, GitSend.read_advertisement s = .ok out rest →
      strBytes "capabilities^\x7b\x7d" ∉ out.2.map (fun p => p.1))
    ∧ GitSend.read_advertisement emptyRepoAdvert =
        .ok ([(Capability.Agent, some (strBytes "x/1")), (Capability.ReportStatus, none)],
          []) []
    ∧ GitFetch.read_advertisement emptyRepoAdvert =
        .ok ([(Capability.Agent, some (strBytes "x/1")), (Capability.ReportStatus, none)],
          [(strBytes "capabilities^\x7b\x7d", NULLSHA)]) [] := by
  refine ⟨?_, by decide, by decide⟩
  intro s out rest h
  exact advertLoopF_sentinel s.length [] [] s out rest h (by simp)

/-- C1, witness for the amended theorem at the empty-repository input. -/
theorem c1_sentinel_amended_witness :
    strBytes "capabilities^\x7b\x7d" ∉
      (([] : List (List Nat × List Nat)).map (fun p => p.1)) :=
  c1_sentinel_amended.1 emptyRepoAdvert
    ([(Capability.Agent, some (strBytes "x/1")), (Capability.ReportStatus, none)], []) []
    (by decide)

/-- C2, counterexample: an accepted advertisement containing a peeled ref
line leaves a key ending `^{}` in the parsed ref map. -/
theorem c2_peeled_counterexample :
    RefAdvertisement.read_from peeledAdvert =
      .ok ([], [(strBytes "refs/tags/v1^\x7b\x7d", strBytes "A")]) []
    ∧ endsWithB (strBytes "refs/tags/v1^\x7b\x7d") (strBytes "^\x7b\x7d") = true :=
  ⟨by decide, by decide⟩

/-- C2, amended: the parsed ref map may retain peeled `^{}` names; their
exclusion happens at the orchestrator's wants computation, which admits an
identifier exactly when some source ref with a non-peeled key maps to it
and the target holds no ref with that identifier. -/
theorem c2_peeled_amended (src tgt : List (List Nat × List Nat)) (v : List Nat) :
    v ∈ wantsOf src tgt ↔
      ∃ k, (k, v) ∈ src ∧ endsWithB k (strBytes "^\x7b\x7d") = false ∧
        tgt.any (fun q => decide (q.2 = v)) = false := by
  constructor
  · intro hv
    rcases List.mem_map.mp hv with ⟨p, hp, hpv⟩
    rcases List.mem_filter.mp hp with ⟨hp1, h2⟩
    rcases List.mem_filter.mp hp1 with ⟨hps, h1⟩
    refine ⟨p.1, ?_, ?_, ?_⟩
    · rw [← hpv]
      exact hps
    · simpa using h1
    · simpa [hpv] using h2
  · rintro ⟨k, hk, h1, h2⟩
    refine List.mem_map.mpr ⟨(k, v), ?_, rfl⟩
    refine List.mem_filter.mpr ⟨List.mem_filter.mpr ⟨hk, ?_⟩, ?_⟩
    · simpa using h1
    · simpa using h2

/-- C2, witness for the amended theorem: a non-peeled source ref absent from
the target is wanted. -/
theorem c2_peeled_amended_witness :
    strBytes "A" ∈ wantsOf [(strBytes "refs/heads/main", strBytes "A")] [] :=
  (c2_peeled_amended [(strBytes "refs/heads/main", strBytes "A")] []
      (strBytes "A")).mpr
    ⟨strBytes "refs/heads/main", by decide, by decide, by decide⟩

/-- C3: decoding a packet whose four header bytes are the ASCII characters
`0003` fails, for every remaining stream and chomp mode, with the
kind-`Other` error of protocol.rs:87 — distinct from the `UnexpectedEof` of
a short header read and the `BrokenPipe` of a truncated payload, the two
plain I/O failures of the decoder. -/
theorem c3_reserved_0003 (chomp : Bool) (rest : List Nat) :
    ProtocolLine.read_from chomp (48 :: 48 :: 48 :: 51 :: rest) =
      .err ⟨.other, none⟩
    ∧ ErrKind.other ≠ ErrKind.unexpectedEof
    ∧ ErrKind.other ≠ ErrKind.brokenPipe :=
  ⟨rfl, by decide, by decide⟩

/-- C4: frame round-trip — for every payload of length at most 65515,
encoding a `Data` packet and decoding the produced bytes with chomping
disabled returns the identical payload and consumes the whole frame. -/
theorem c4_frame_roundtrip (b : List Nat) (h : b.length ≤ 65515) :
    ProtocolLine.read_from false (ProtocolLine.write_to (.Data b)) =
      .ok (.Data b) [] := by
  have hrt := read_write_data false b [] h
  simpa [chompData] using hrt

/-- C4, witness at the one-byte payload of spec §8 scenario 1. -/
theorem c4_frame_roundtrip_witness :
    (strBytes "a").length ≤ 65515 ∧
      ProtocolLine.read_from false (ProtocolLine.write_to (.Data (strBytes "a"))) =
        .ok (.Data (strBytes "a")) [] :=
  ⟨by decide, c4_frame_roundtrip (strBytes "a") (by decide)⟩

/-- C5, counterexample: the header `"000 "` (a space as last byte) is not a
literal sentinel and lexes leniently to 0, so the decoder's `usize`
computation `0 - 4` underflows and the code panics instead of returning a
`Data` packet or an error. -/
theorem c5_lenient_counterexample :
    ProtocolLine.read_from false [48, 48, 48, 32] =
      .crash "attempt to subtract with overflow"
    ∧ [48, 48, 48, 32] ≠ strBytes "0000"
    ∧ [48, 48, 48, 32] ≠ strBytes "0001"
    ∧ [48, 48, 48, 32] ≠ strBytes "0002"
    ∧ [48, 48, 48, 32] ≠ strBytes "0003"
    ∧ lexVal 48 48 48 32 = 0 :=
  ⟨by decide, by decide, by decide, by decide, by decide, by decide⟩

/-- C5, amended: for every non-sentinel header whose lenient value `L` is at
least 4, decoding reads exactly `L - 4` payload bytes and returns a `Data`
packet (or `BrokenPipe` when the stream is shorter); but when the lenient
value is below 4 the length subtraction underflows and the code panics. -/
theorem c5_lenient_amended (chomp : Bool) (a₁ a₂ a₃ a₄ : Nat) (tail : List Nat)
    (hs0 : [a₁, a₂, a₃, a₄] ≠ strBytes "0000")
    (hs1 : [a₁, a₂, a₃, a₄] ≠ strBytes "0001")
    (hs2 : [a₁, a₂, a₃, a₄] ≠ strBytes "0002")
    (hs3 : [a₁, a₂, a₃, a₄] ≠ strBytes "0003") :
    (4 ≤ lexVal a₁ a₂ a₃ a₄ →
      ProtocolLine.read_from chomp (a₁ :: a₂ :: a₃ :: a₄ :: tail) =
        if lexVal a₁ a₂ a₃ a₄ - 4 ≤ tail.length then
          .ok (.Data (chompData chomp (tail.take (lexVal a₁ a₂ a₃ a₄ - 4))))
            (tail.drop (lexVal a₁ a₂ a₃ a₄ - 4))
        else .err ⟨.brokenPipe, none⟩)
    ∧ (lexVal a₁ a₂ a₃ a₄ < 4 →
      ProtocolLine.read_from chomp (a₁ :: a₂ :: a₃ :: a₄ :: tail) =
        .crash "attempt to subtract with overflow") :=
  ⟨fun h4 => read_from_data_eq chomp a₁ a₂ a₃ a₄ tail h4,
    fun h4 => read_from_underflow chomp a₁ a₂ a₃ a₄ tail hs0 hs1 hs2 hs3 h4⟩

/-- C5, witness for the amended theorem at the header `0005` with a one-byte
payload. -/
theorem c5_lenient_amended_witness :
    ProtocolLine.read_from false [48, 48, 48, 53, 97] = .ok (.Data [97]) [] := by
  have h := (c5_lenient_amended false 48 48 48 53 [97] (by decide) (by decide)
    (by decide) (by decide)).1 (by decide)
  rw [h]
  decide

/-- C6: with an empty wanted-identifier list, `request_pack` writes exactly
the four bytes `0000`, returns "no pack expected" (`false`), and leaves the
source peer's reply stream untouched, whatever the have and capability
iterators hold. -/
theorem c6_zero_wants (haves : List (List Nat))
    (caps : List (Capability × Option (List Nat))) (reader : List Nat) :
    GitFetch.request_pack [] haves caps reader =
      (strBytes "0000", .ok false reader) := by
  simp [GitFetch.request_pack, wantLines]

/-- C7: for a non-empty wanted list, `request_pack` writes one `Data` packet
`want <id>` per identifier; only the first carries the capability list —
every capability token space-prefixed with its `=value` suffix when a value
is present — and the later `want` packets carry the bare identifier. -/
theorem c7_caps_on_first_want (w : List Nat) (ws haves : List (List Nat))
    (caps : List (Capability × Option (List Nat))) (reader : List Nat) :
    (GitFetch.request_pack (w :: ws) haves caps reader).1 =
      ProtocolLine.write_str (strBytes "want " ++ w ++ capsSuffix caps)
      ++ ((ws.map (fun sha => strBytes "want " ++ sha)).map
            ProtocolLine.write_str).flatten
      ++ strBytes "0000"
      ++ (haves.map (fun sha =>
            ProtocolLine.write_str (strBytes "have " ++ sha))).flatten
      ++ ProtocolLine.write_str (strBytes "done")
    ∧ capsSuffix caps =
      (caps.map (fun cap => [32] ++ strBytes cap.1.as_str ++
        (match cap.2 with
        | some v => [61] ++ v
        | none => []))).flatten :=
  ⟨request_pack_written w ws haves caps reader, capsSuffix_eq caps⟩

/-- C8: after the wants, flush, haves and done, `request_pack` reads exactly
one packet and returns "pack expected" (`true`) precisely when that packet
is a `Data` packet whose payload is `NAK`; any other packet kind or payload
yields the protocol error, and a read failure propagates, with no further
reads in either case. -/
theorem c8_nak_confirmation (w : List Nat) (ws haves : List (List Nat))
    (caps : List (Capability × Option (List Nat))) (reader : List Nat) :
    (∀ rest, (GitFetch.request_pack (w :: ws) haves caps reader).2 =
        .ok true rest ↔
      ProtocolLine.read_from true reader = .ok (.Data (strBytes "NAK")) rest)
    ∧ (∀ p rest, ProtocolLine.read_from true reader = .ok p rest →
        p ≠ .Data (strBytes "NAK") →
        (GitFetch.request_pack (w :: ws) haves caps reader).2 =
          .err ⟨.other, some "NAK packet not found"⟩)
    ∧ (∀ e, ProtocolLine.read_from true reader = .err e →
        (GitFetch.request_pack (w :: ws) haves caps reader).2 = .err e) := by
  refine ⟨fun rest => request_pack_ok_iff w ws haves caps reader rest, ?_, ?_⟩
  · intro p rest hrd hne
    rw [request_pack_result, hrd]
    cases p with
    | Flush => rfl
    | Delimiter => rfl
    | ResponseEnd => rfl
    | Data d =>
      have hd : d ≠ strBytes "NAK" := fun h => hne (by rw [h])
      simp [hd]
  · intro e he
    rw [request_pack_result, he]

/-- C8, witness: a `NAK` reply confirms the pack. -/
theorem c8_nak_confirmation_witness :
    (GitFetch.request_pack [[97]] [] [] (strBytes "0007NAK")).2 = .ok true [] :=
  ((c8_nak_confirmation [97] [] [] [] (strBytes "0007NAK")).1 []).mpr (by decide)

/-- C9, counterexample: with `multi_ack` among the capabilities,
`request_pack` does not reject the input — it writes the full
want/flush/done dialogue (forwarding `multi_ack` on the want line) and
returns "pack expected" after a `NAK`. -/
theorem c9_multiack_counterexample :
    GitFetch.request_pack [strBytes "A"] [] [(Capability.MultiAck, none)]
        (ProtocolLine.write_str (strBytes "NAK")) =
      (ProtocolLine.write_str (strBytes "want A multi_ack")
        ++ strBytes "0000" ++ ProtocolLine.write_str (strBytes "done"),
        .ok true []) := by
  decide

/-- C9, amended: `request_pack` performs no multi-ack precondition check —
with `multi_ack` among the capabilities the dialogue proceeds exactly as
usual (success governed solely by the `NAK` reply) and the `multi_ack`
token is forwarded inside the written stream; excluding it is an unchecked
caller precondition. -/
theorem c9_multiack_amended (w : List Nat) (ws haves : List (List Nat))
    (caps : List (Capability × Option (List Nat))) (v : Option (List Nat))
    (reader : List Nat) (hmem : (Capability.MultiAck, v) ∈ caps) :
    (∀ rest, (GitFetch.request_pack (w :: ws) haves caps reader).2 =
        .ok true rest ↔
      ProtocolLine.read_from true reader = .ok (.Data (strBytes "NAK")) rest)
    ∧ ∃ pre post, (GitFetch.request_pack (w :: ws) haves caps reader).1 =
        pre ++ strBytes "multi_ack" ++ post := by
  obtain ⟨pre, post, hps⟩ :=
    capsSuffix_contains caps Capability.MultiAck v hmem
  simp only [Capability.as_str] at hps
  refine ⟨fun rest => request_pack_ok_iff w ws haves caps reader rest, ?_⟩
  have hw := request_pack_written w ws haves caps reader
  rw [hps] at hw
  refine ⟨pktLenHeader ((strBytes "want " ++ w
        ++ (pre ++ strBytes "multi_ack" ++ post)).length + 4)
      ++ strBytes "want " ++ w ++ pre,
    post ++ (((ws.map (fun sha => strBytes "want " ++ sha)).map
        ProtocolLine.write_str).flatten
      ++ strBytes "0000"
      ++ (haves.map (fun sha =>
          ProtocolLine.write_str (strBytes "have " ++ sha))).flatten
      ++ ProtocolLine.write_str (strBytes "done")), ?_⟩
  rw [hw, ProtocolLine.write_str]
  simp [List.append_assoc]

/-- C9, witness for the amended theorem. -/
theorem c9_multiack_amended_witness :
    (GitFetch.request_pack [strBytes "B"] [] [(Capability.MultiAck, none)]
      (ProtocolLine.write_str (strBytes "NAK"))).2 = .ok true [] :=
  ((c9_multiack_amended (strBytes "B") [] [] [(Capability.MultiAck, none)] none
      (ProtocolLine.write_str (strBytes "NAK")) (by decide)).1 []).mpr (by decide)

/-- C10: the emitter's tri-state equals `Nothing` exactly when no command was
emitted, `Sending` exactly when some emitted command has a non-null new
identifier, and `Deleting` exactly when commands were emitted and all new
identifiers are null. -/
theorem c10_classification (existing target : List (List Nat × List Nat))
    (caps : List (Capability × Option (List Nat))) :
    ((send_refchange existing target caps).2 = .Nothing ↔
        sendCommands existing target = [])
    ∧ ((send_refchange existing target caps).2 = .Sending ↔
        ∃ c ∈ sendCommands existing target, c.2.1 ≠ NULLSHA)
    ∧ ((send_refchange existing target caps).2 = .Deleting ↔
        sendCommands existing target ≠ [] ∧
          ∀ c ∈ sendCommands existing target, c.2.1 = NULLSHA) := by
  have h2 : (send_refchange existing target caps).2 =
      (sendCommands existing target).foldl updateActivity .Nothing := rfl
  rw [h2]
  exact activity_classification (sendCommands existing target)

/-- C10, witness: deleting the only existing ref classifies as `Deleting`. -/
theorem c10_classification_witness :
    (send_refchange [(strBytes "refs/heads/main", strBytes "A")] [] []).2 =
      SendActivity.Deleting :=
  ((c10_classification [(strBytes "refs/heads/main", strBytes "A")] [] []).2.2).mpr
    ⟨by decide, by decide⟩
